import Mathlib

/-!
# Verification of the row-to-project consolidation and rating-aggregation pipeline

Shallow embedding of the core logic of the `ai_risk_manager` repository:
the field normalizer (`_extract_text_content`), the project text consolidators
(`create_project_text`, `format_section`, `concatenate_project_text`), the
rating aggregator and exporter (`generateReport` in `risk_assesment_output.py`),
and the persistence operations (`bulk_insert_risk_assessments` in
`database_handler.py`, the per-row status upserts in `backend/file_handler.py`
and `backend/app/main.py`).

Modelling conventions
* Python strings are `String` or `List Char`; cells that may be `NaN`/missing
  are `Option String` with `none` playing the role of a missing or NaN cell.
* Regular-expression substitutions are embedded as left-to-right scanners with
  the exact matching discipline of `re.sub` on the patterns occurring in the
  source (tag patterns and whitespace runs).
* Dates are embedded as naturals or as a year/month/day structure; the pandas
  `to_datetime` parser is modelled on ISO `YYYY-MM-DD` strings, which is the
  shape the pipeline feeds it; with default settings it raises on a value it
  cannot parse, which the embedding renders as `Except.error`.
* Database state is an association list keyed by the unique constraint of the
  corresponding table; a statement-level failure (connection loss, constraint
  violation) is abstracted as a boolean predicate on the record being written,
  since the source treats the failure cause as opaque.
* `df.sort_values` runs with its default `kind="quicksort"`, which is not
  stable, so the sort step is embedded as a CONTRACT: a parameter ranging over
  every function returning a permutation of its input that is ascending in the
  sort column (`SortsByDate`, `SortsByUpdated`); `List.mergeSort` serves only
  as one admissible instance for concrete runs.  `groupby(...).last()` keeps,
  for each distinct key, the last row of the sorted frame, and with the
  default `dropna=True` drops every group whose key holds a missing value.
* The psycopg2 paths share one connection-wide transaction: a failed statement
  puts it into the aborted state, later statements on it raise
  `InFailedSqlTransaction`, and `COMMIT` on an aborted transaction executes as
  `ROLLBACK` without raising.  Each asyncpg `connection.execute` runs in its
  own implicit transaction and commits on its own.
-/

/-! ## Field normalizer (`_extract_text_content`)

From `project_excel_data_analyzer.py` lines 78-97 and the identical
`project_risk_analyzer.py` lines 83-91:
`clean = re.sub(r"<[^>]*>", "", str(text))` followed by
`re.sub(r"\s+", " ", clean).strip()`.
-/

/-- Python whitespace class `\s` restricted to ASCII. -/
def isWS (c : Char) : Bool :=
  c = ' ' || c = '\t' || c = '\n' || c = '\x0d' || c = '\x0b' || c = '\x0c'

/-- The suffix of the list strictly after the first occurrence of the
character `>`; `none` when no `>` occurs.  This is the continuation point of
the `re.sub` scanner after a tag match. -/
def afterGt : List Char → Option (List Char)
  | [] => none
  | c :: cs => if c = '>' then some cs else afterGt cs

theorem afterGt_length : ∀ {l r : List Char}, afterGt l = some r → r.length < l.length
  | c :: cs, r, h => by
    by_cases hc : c = '>'
    · simp [afterGt, hc] at h
      simp [← h]
    · simp [afterGt, hc] at h
      have := afterGt_length (l := cs) h
      simp
      omega

theorem afterGt_mem {l r : List Char} (h : afterGt l = some r) : ∀ a ∈ r, a ∈ l := by
  induction l with
  | nil => simp [afterGt] at h
  | cons c cs ih =>
    by_cases hc : c = '>'
    · simp [afterGt, hc] at h
      intro a ha
      exact List.mem_cons_of_mem _ (h ▸ ha)
    · simp [afterGt, hc] at h
      intro a ha
      exact List.mem_cons_of_mem _ (ih h a ha)

theorem afterGt_eq_none {l : List Char} : afterGt l = none ↔ '>' ∉ l := by
  induction l with
  | nil => simp [afterGt]
  | cons c cs ih =>
    by_cases hc : c = '>'
    · subst hc
      simp [afterGt]
    · simp [afterGt, hc, ih]
      intro
      exact fun hh => hc hh.symm

/-- `re.sub(r"<[^>]*>", "", s)`: at a `<` the pattern matches exactly when some
`>` occurs later (the greedy `[^>]*` stops right before the first `>`), the
match is deleted, and the scanner resumes after that `>`. -/
def removeTags : List Char → List Char
  | [] => []
  | c :: cs =>
    if c = '<' then
      match h : afterGt cs with
      | some rest => removeTags rest
      | none => '<' :: removeTags cs
    else c :: removeTags cs
termination_by l => l.length
decreasing_by
  all_goals simp_wf
  all_goals first
    | omega
    | (have hlen := afterGt_length h
       omega)

theorem removeTags_nil : removeTags [] = [] := by
  rw [removeTags]

theorem removeTags_lt_some {cs rest : List Char} (h : afterGt cs = some rest) :
    removeTags ('<' :: cs) = removeTags rest := by
  rw [removeTags]
  split
  · split
    · rename_i heq
      rw [h] at heq
      injection heq with heq
      rw [heq]
    · rename_i heq
      rw [h] at heq
      exact absurd heq (by simp)
  · simp at *

theorem removeTags_lt_none {cs : List Char} (h : afterGt cs = none) :
    removeTags ('<' :: cs) = '<' :: removeTags cs := by
  rw [removeTags]
  split
  · split
    · rename_i heq
      rw [h] at heq
      exact absurd heq (by simp)
    · rfl
  · simp at *

theorem removeTags_cons_ne {c : Char} {cs : List Char} (h : ¬c = '<') :
    removeTags (c :: cs) = c :: removeTags cs := by
  rw [removeTags]
  simp [h]

theorem mem_removeTags : ∀ {l : List Char}, ∀ a ∈ removeTags l, a ∈ l := by
  intro l
  induction l using removeTags.induct with
  | case1 => simp [removeTags_nil]
  | case2 cs rest h ih =>
    rw [removeTags_lt_some h]
    intro a ha
    exact List.mem_cons_of_mem _ (afterGt_mem h a (ih a ha))
  | case3 cs h ih =>
    rw [removeTags_lt_none h]
    intro a ha
    rw [List.mem_cons] at ha
    rcases ha with rfl | ha
    · simp
    · exact List.mem_cons_of_mem _ (ih a ha)
  | case4 c cs h ih =>
    rw [removeTags_cons_ne h]
    intro a ha
    rw [List.mem_cons] at ha
    rcases ha with rfl | ha
    · simp
    · exact List.mem_cons_of_mem _ (ih a ha)

/-- Tag-freeness invariant: no `<` in the list is followed (anywhere later) by
a `>`.  On such lists the tag scanner is the identity. -/
def NoTag : List Char → Prop
  | [] => True
  | c :: cs => (c = '<' → '>' ∉ cs) ∧ NoTag cs

theorem noTag_removeTags : ∀ (l : List Char), NoTag (removeTags l) := by
  intro l
  induction l using removeTags.induct with
  | case1 => simp [removeTags_nil, NoTag]
  | case2 cs rest h ih =>
    rw [removeTags_lt_some h]
    exact ih
  | case3 cs h ih =>
    rw [removeTags_lt_none h]
    refine ⟨fun _ hmem => ?_, ih⟩
    exact (afterGt_eq_none.mp h) (mem_removeTags _ hmem)
  | case4 c cs h ih =>
    rw [removeTags_cons_ne h]
    exact ⟨fun hc => absurd hc h, ih⟩

theorem removeTags_of_noTag : ∀ {l : List Char}, NoTag l → removeTags l = l := by
  intro l
  induction l with
  | nil => exact fun _ => removeTags_nil
  | cons c cs ih =>
    intro h
    rcases h with ⟨h1, h2⟩
    by_cases hc : c = '<'
    · subst hc
      rw [removeTags_lt_none (afterGt_eq_none.mpr (h1 rfl)), ih h2]
    · rw [removeTags_cons_ne hc, ih h2]

/-- `NoTag` is inherited by sublists: dropping characters can only remove
`>` characters that followed a `<`. -/
theorem NoTag.sublist : ∀ {m l : List Char}, List.Sublist m l → NoTag l → NoTag m := by
  intro m l h
  induction h with
  | slnil => exact fun h => h
  | cons a _ ih => exact fun hl => ih hl.2
  | cons₂ a hsub ih =>
    intro hl
    exact ⟨fun hc hmem => hl.1 hc (hsub.mem hmem), ih hl.2⟩

/-- `re.sub(r"\s+", " ", s)`: every maximal run of whitespace becomes one
space. -/
def collapseWS : List Char → List Char
  | [] => []
  | c :: cs =>
    if isWS c then ' ' :: collapseWS (cs.dropWhile isWS)
    else c :: collapseWS cs
termination_by l => l.length
decreasing_by
  all_goals simp
  · have := (List.dropWhile_sublist (l := cs) isWS).length_le
    omega

theorem collapseWS_nil : collapseWS [] = [] := by rw [collapseWS]

theorem collapseWS_ws {c : Char} {cs : List Char} (h : isWS c = true) :
    collapseWS (c :: cs) = ' ' :: collapseWS (cs.dropWhile isWS) := by
  rw [collapseWS]
  simp [h]

theorem collapseWS_not_ws {c : Char} {cs : List Char} (h : ¬isWS c = true) :
    collapseWS (c :: cs) = c :: collapseWS cs := by
  rw [collapseWS]
  simp [h]

theorem mem_collapseWS : ∀ {l : List Char}, ∀ a ∈ collapseWS l, a ∈ l ∨ a = ' ' := by
  intro l
  induction l using collapseWS.induct with
  | case1 => simp [collapseWS_nil]
  | case2 c cs h ih =>
    rw [collapseWS_ws h]
    intro a ha
    rw [List.mem_cons] at ha
    rcases ha with rfl | ha
    · right; rfl
    · rcases ih a ha with hm | hs
      · exact Or.inl (List.mem_cons_of_mem _ ((List.dropWhile_sublist isWS).mem hm))
      · exact Or.inr hs
  | case3 c cs h ih =>
    rw [collapseWS_not_ws h]
    intro a ha
    rw [List.mem_cons] at ha
    rcases ha with rfl | ha
    · exact Or.inl (List.mem_cons_self _ _)
    · rcases ih a ha with hm | hs
      · exact Or.inl (List.mem_cons_of_mem _ hm)
      · exact Or.inr hs

/-- Python `str.strip()` on the right end: drop trailing whitespace. -/
def trimRight : List Char → List Char
  | [] => []
  | c :: cs =>
    match trimRight cs with
    | [] => if isWS c then [] else [c]
    | d :: r => c :: d :: r

theorem trimRight_sublist : ∀ (l : List Char), List.Sublist (trimRight l) l := by
  intro l
  induction l with
  | nil => simp [trimRight]
  | cons c cs ih =>
    rw [trimRight]
    rcases h : trimRight cs with _ | ⟨d, r⟩
    · by_cases hc : isWS c
      · simp [hc]
      · simp [hc]
    · rw [h] at ih
      exact List.cons_sublist_cons.mpr ih

/-- A nonempty `trimRight` result starts with the head of the input. -/
theorem trimRight_cons_shape (c : Char) (cs : List Char) :
    trimRight (c :: cs) = [] ∨ ∃ r, trimRight (c :: cs) = c :: r := by
  rw [trimRight]
  rcases h : trimRight cs with _ | ⟨d, r⟩
  · by_cases hc : isWS c
    · simp [hc]
    · simp [hc]
  · exact Or.inr ⟨d :: r, rfl⟩

theorem trimRight_idem : ∀ (l : List Char), trimRight (trimRight l) = trimRight l := by
  intro l
  induction l with
  | nil => simp [trimRight]
  | cons c cs ih =>
    rcases h : trimRight cs with _ | ⟨d, r⟩
    · rw [trimRight, h]
      by_cases hc : isWS c
      · simp [hc, trimRight]
      · simp [hc, trimRight]
    · rw [trimRight, h]
      rw [h] at ih
      rw [trimRight]
      simp [ih]

/-- Python `str.strip()`: drop leading and trailing whitespace. -/
def pyStrip (l : List Char) : List Char :=
  trimRight (l.dropWhile isWS)

/-- The normalizer `_extract_text_content` of `project_excel_data_analyzer.py`
(lines 78-97) and `project_risk_analyzer.py` (lines 83-91) restricted to
string cells: an empty cell short-circuits to `""`; otherwise HTML-like tags
are removed, whitespace runs are collapsed to single spaces, and the result is
stripped. -/
def normalizeText (s : String) : String :=
  if s = "" then ""
  else String.mk (pyStrip (collapseWS (removeTags s.data)))

theorem NoTag.tail {c : Char} {cs : List Char} (h : NoTag (c :: cs)) : NoTag cs := h.2

/-- Collapsing whitespace neither creates a tag nor reorders the angle
characters, so `NoTag` survives. -/
theorem NoTag.collapseWS : ∀ {l : List Char}, NoTag l → NoTag (collapseWS l) := by
  intro l
  induction l using collapseWS.induct with
  | case1 => simp [collapseWS_nil, NoTag]
  | case2 c cs h ih =>
    intro hl
    rw [collapseWS_ws h]
    refine ⟨by simp, ?_⟩
    exact ih (NoTag.sublist (List.dropWhile_sublist isWS) hl.2)
  | case3 c cs h ih =>
    intro hl
    rw [collapseWS_not_ws h]
    refine ⟨fun hc hmem => ?_, ih hl.2⟩
    rcases mem_collapseWS _ hmem with hm | hs
    · exact hl.1 hc hm
    · simp at hs

theorem NoTag.pyStrip {l : List Char} (h : NoTag l) : NoTag (pyStrip l) :=
  NoTag.sublist (trimRight_sublist _) (NoTag.sublist (List.dropWhile_sublist isWS) h)

/-- Whether the list starts with a whitespace character. -/
def headWS : List Char → Bool
  | [] => false
  | c :: _ => isWS c

/-- Well-collapsed whitespace: every whitespace character is a single space
and no two whitespace characters are adjacent.  `collapseWS` is the identity
on such lists. -/
def WSOk : List Char → Prop
  | [] => True
  | c :: cs => (isWS c = true → c = ' ' ∧ headWS cs = false) ∧ WSOk cs

theorem headWS_dropWhile (l : List Char) : headWS (l.dropWhile isWS) = false := by
  induction l with
  | nil => simp [headWS]
  | cons c cs ih =>
    by_cases h : isWS c
    · simpa [List.dropWhile_cons, h] using ih
    · simp [List.dropWhile_cons, h, headWS]

theorem dropWhile_of_headWS {l : List Char} (h : headWS l = false) :
    l.dropWhile isWS = l := by
  cases l with
  | nil => simp
  | cons c cs =>
    simp [headWS] at h
    simp [List.dropWhile_cons, h]

theorem headWS_collapse_drop (l : List Char) :
    headWS (collapseWS (l.dropWhile isWS)) = false := by
  induction l with
  | nil => simp [collapseWS_nil, headWS]
  | cons c cs ih =>
    by_cases h : isWS c
    · simpa [List.dropWhile_cons, h] using ih
    · rw [List.dropWhile_cons, if_neg (by simpa using h), collapseWS_not_ws (by simpa using h)]
      simpa [headWS] using h

theorem wsOk_collapseWS : ∀ (l : List Char), WSOk (collapseWS l) := by
  intro l
  induction l using collapseWS.induct with
  | case1 => simp [collapseWS_nil, WSOk]
  | case2 c cs h ih =>
    rw [collapseWS_ws h]
    exact ⟨fun _ => ⟨rfl, headWS_collapse_drop cs⟩, ih⟩
  | case3 c cs h ih =>
    rw [collapseWS_not_ws h]
    exact ⟨fun hws => absurd hws h, ih⟩

theorem wsOk_dropWhile {l : List Char} (h : WSOk l) : WSOk (l.dropWhile isWS) := by
  induction l with
  | nil => simpa using h
  | cons c cs ih =>
    by_cases hc : isWS c
    · rw [List.dropWhile_cons, if_pos hc]
      exact ih h.2
    · rw [List.dropWhile_cons, if_neg hc]
      exact h

theorem trimRight_head {l r : List Char} {d : Char} (h : trimRight l = d :: r) :
    headWS l = isWS d := by
  cases l with
  | nil => simp [trimRight] at h
  | cons c cs =>
    rcases trimRight_cons_shape c cs with h0 | ⟨r0, h0⟩
    · rw [h0] at h
      exact absurd h (by simp)
    · rw [h0] at h
      injection h with h1 _
      rw [← h1]
      rfl

theorem wsOk_trimRight {l : List Char} (h : WSOk l) : WSOk (trimRight l) := by
  induction l with
  | nil => simpa [trimRight] using h
  | cons c cs ih =>
    rcases h0 : trimRight cs with _ | ⟨d, r⟩
    · rw [trimRight, h0]
      by_cases hc : isWS c
      · simp [hc, WSOk]
      · simp [hc, WSOk, headWS]
    · rw [trimRight, h0]
      have hws : WSOk (d :: r) := h0 ▸ ih h.2
      refine ⟨fun hw => ⟨(h.1 hw).1, ?_⟩, hws⟩
      have := trimRight_head h0
      rw [headWS, ← this, (h.1 hw).2]

theorem wsOk_fixed : ∀ {l : List Char}, WSOk l → collapseWS l = l := by
  intro l
  induction l with
  | nil => exact fun _ => collapseWS_nil
  | cons c cs ih =>
    intro h
    by_cases hc : isWS c
    · rw [collapseWS_ws hc, dropWhile_of_headWS (h.1 hc).2, ih h.2, (h.1 hc).1]
    · rw [collapseWS_not_ws hc, ih h.2]

theorem headWS_trimRight {l : List Char} (h : headWS l = false) :
    headWS (trimRight l) = false := by
  rcases h0 : trimRight l with _ | ⟨d, r⟩
  · rfl
  · rw [headWS, ← trimRight_head h0, h]

theorem pyStrip_idem (l : List Char) : pyStrip (pyStrip l) = pyStrip l := by
  rw [pyStrip, pyStrip]
  rw [dropWhile_of_headWS (headWS_trimRight (headWS_dropWhile l))]
  exact trimRight_idem _

theorem wsOk_pyStrip {l : List Char} (h : WSOk l) : WSOk (pyStrip l) :=
  wsOk_trimRight (wsOk_dropWhile h)

/-- C8: the field normalizer is idempotent.  `normalizeText` embeds
`_extract_text_content` (coerce to string, delete substrings matching
`<[^>]*>`, collapse whitespace runs to one space, strip); applying it twice
gives the same result as applying it once, for every input string. -/
theorem normalizeText_idempotent (s : String) :
    normalizeText (normalizeText s) = normalizeText s := by
  by_cases hs : s = ""
  · simp [normalizeText, hs]
  · have hns : normalizeText s = String.mk (pyStrip (collapseWS (removeTags s.data))) := by
      rw [normalizeText, if_neg hs]
    rw [hns]
    by_cases hu0 : String.mk (pyStrip (collapseWS (removeTags s.data))) = ""
    · rw [hu0]
      rfl
    · rw [normalizeText, if_neg hu0]
      have hnt : NoTag (pyStrip (collapseWS (removeTags s.data))) :=
        NoTag.pyStrip (NoTag.collapseWS (noTag_removeTags _))
      have hws : WSOk (pyStrip (collapseWS (removeTags s.data))) :=
        wsOk_pyStrip (wsOk_collapseWS _)
      rw [show (String.mk (pyStrip (collapseWS (removeTags s.data)))).data
            = pyStrip (collapseWS (removeTags s.data)) from rfl]
      rw [removeTags_of_noTag hnt, wsOk_fixed hws, pyStrip_idem]

/-- Python `str.strip()` at string level. -/
def pyStripStr (s : String) : String := String.mk (pyStrip s.data)

/-! ## Rating aggregator / exporter (`risk_assesment_output.generateReport`)

Data model of the intermediate JSON artifact: a list of execution records,
each with a `tasks_output` list of `{agent, json_dict}` entries; every
`dict.get` with a default is an `Option.getD`. -/

structure OpticRating where
  optic_name : String
  rating : String
  justification : String
  recommendation : String
deriving DecidableEq, Repr

structure JsonDict where
  project_id : Option String
  project_name : Option String
  rating_date : Option String
  optic_ratings : Option (List OpticRating)
deriving DecidableEq, Repr

structure TaskEntry where
  agent : Option String
  json_dict : Option JsonDict
deriving DecidableEq, Repr

structure TaskItem where
  tasks_output : Option (List TaskEntry)
deriving DecidableEq, Repr

/-- One element of `results` (lines 30-36 of `risk_assesment_output.py`). -/
structure ProjectRating where
  agent : String
  project_id : Option String
  project_name : Option String
  rating_date : Option String
  optic_ratings : List OpticRating
deriving DecidableEq, Repr

def officerRole : String := "Chief Risk Assessment Officer"

/-- Lines 18-36 of `generateReport`: an entry contributes a result exactly
when its stripped agent equals the consolidating role; all payload fields are
read with `dict.get`, so absent keys become `none` / `[]`. -/
def extractEntry (item : TaskEntry) : Option ProjectRating :=
  let agent := pyStripStr (item.agent.getD "")
  if agent = officerRole then
    let jd := item.json_dict.getD ⟨none, none, none, none⟩
    some ⟨agent, jd.project_id, jd.project_name, jd.rating_date, jd.optic_ratings.getD []⟩
  else none

/-- Lines 15-36 of `generateReport`: scan every execution record, keeping the
consolidating entries of each in order. -/
def extractResults (data : List TaskItem) : List ProjectRating :=
  data.flatMap fun ti => (ti.tasks_output.getD []).filterMap extractEntry

/-- One element of `all_rows` (lines 46-55 of `risk_assesment_output.py`). -/
structure FlatRow where
  project_id : Option String
  project_name : Option String
  rating_date : Option String
  optic_name : String
  rating : String
  justification : String
  recommendation : String
deriving DecidableEq, Repr

/-- Lines 42-55: flatten each result into one row per optic rating. -/
def flattenResults (results : List ProjectRating) : List FlatRow :=
  results.flatMap fun res => res.optic_ratings.map fun o =>
    ⟨res.project_id, res.project_name, res.rating_date, o.optic_name,
      o.rating, o.justification, o.recommendation⟩

/-- Split a character list at every `-` separator. -/
def splitDash : List Char → List (List Char)
  | [] => [[]]
  | c :: cs =>
    match splitDash cs with
    | [] => [[]]
    | g :: gs => if c = '-' then [] :: g :: gs else (c :: g) :: gs

/-- A nonempty all-digit chunk read as a natural number. -/
def digitsToNat? (l : List Char) : Option Nat :=
  if l.isEmpty then none
  else if l.all Char.isDigit then
    some (l.foldl (fun acc c => acc * 10 + (c.toNat - 48)) 0)
  else none

/-- `pd.to_datetime` on one value, modelled on ISO `YYYY-MM-DD` strings (the
shape the engine emits): the date becomes the comparable ordinal
`y * 10000 + m * 100 + d`; anything else fails to parse. -/
def parseDate (s : String) : Option Nat :=
  match (splitDash s.data).map digitsToNat? with
  | [some y, some m, some d] =>
    if 1 ≤ m ∧ m ≤ 12 ∧ 1 ≤ d ∧ d ≤ 31 then some (y * 10000 + m * 100 + d) else none
  | _ => none

/-- A row of the frame after the `rating_date` column has been converted. -/
structure Row where
  project_id : Option String
  project_name : Option String
  rating_date : Nat
  optic_name : String
  rating : String
  justification : String
  recommendation : String
deriving DecidableEq, Repr

/-- The dedupe key of line 67: `(project_id, project_name, optic_name)`. -/
abbrev RowKey := Option String × Option String × String

def Row.key (r : Row) : RowKey := (r.project_id, r.project_name, r.optic_name)

/-- Line 63, `df["rating_date"] = pd.to_datetime(df["rating_date"])` with the
default `errors="raise"`: the conversion of the whole column fails at the
first value that does not parse (a missing value, which pandas would turn
into `NaT`, is conservatively treated as a failure as well; the pipeline
always supplies a string here). -/
def toDatetimeCol : List FlatRow → Except String (List Row)
  | [] => .ok []
  | r :: rs =>
    match r.rating_date.bind parseDate with
    | none => .error (r.rating_date.getD "None")
    | some d =>
      (toDatetimeCol rs).map fun rows =>
        ⟨r.project_id, r.project_name, d, r.optic_name,
          r.rating, r.justification, r.recommendation⟩ :: rows

def dateLE (a b : Row) : Bool := a.rating_date ≤ b.rating_date

/-- Line 64, `df.sort_values("rating_date")`, returns the rows sorted
ascending by `rating_date`.  The default `kind="quicksort"` leaves the
relative order of rows with equal dates unspecified, so the sort enters the
model as a parameter constrained only by this contract: a permutation of the
input, pairwise sorted by date.  No tie-break guarantee is assumed. -/
def SortsByDate (sort : List Row → List Row) : Prop :=
  (∀ rows : List Row, List.Perm (sort rows) rows)
  ∧ (∀ rows : List Row, (sort rows).Pairwise (dateLE · ·))

/-- One admissible implementation of the `sort_values` contract, used to run
the model on concrete inputs; program-level statements quantify over every
sort satisfying `SortsByDate`. -/
def mergeSortByDate (rows : List Row) : List Row := rows.mergeSort dateLE

theorem dateLE_trans : ∀ (a b c : Row), dateLE a b → dateLE b c → dateLE a c := by
  intro a b c
  simp [dateLE]
  omega

theorem dateLE_total : ∀ (a b : Row), dateLE a b || dateLE b a := by
  intro a b
  simp [dateLE]
  omega

theorem mergeSortByDate_sorts : SortsByDate mergeSortByDate :=
  ⟨fun rows => List.mergeSort_perm rows dateLE,
    fun rows => List.sorted_mergeSort dateLE_trans dateLE_total rows⟩

/-- Whether a group key is complete.  pandas `groupby` runs with its default
`dropna=True`, so every row whose `project_id` or `project_name` is missing
(Python `None`, NaN in the frame) is dropped from the grouping entirely;
only complete keys form groups. -/
def keyComplete (k : RowKey) : Bool := k.1.isSome && k.2.1.isSome

/-- The distinct row keys, in order of first appearance. -/
def firstKeys (rows : List Row) : List RowKey :=
  rows.foldl (fun ks r => if r.key ∈ ks then ks else ks ++ [r.key]) []

/-- The last row of the frame carrying the given key, if any. -/
def lastWithKey (rows : List Row) (k : RowKey) : Option Row :=
  (rows.filter fun r => decide (r.key = k)).getLast?

/-- Line 67, `df.groupby(["project_id", "project_name", "optic_name"]).last()
.reset_index()`: one row per distinct complete key - the last row of the
frame with that key; a key with a missing component forms no group
(`dropna=True` default) and yields no output row.  pandas lists the groups
in sorted key order; they are listed here in order of first appearance, and
every property proved below is insensitive to the order of the groups. -/
def groupLast (rows : List Row) : List Row :=
  (firstKeys rows).filterMap fun k =>
    if keyComplete k then lastWithKey rows k else none

/-- Lines 63-67: the dedupe reduction on a converted frame, over any sort
satisfying the `sort_values` contract. -/
def dedupeToLatestRows (sort : List Row → List Row) (rows : List Row) : List Row :=
  groupLast (sort rows)

/-- Lines 58-67: conversion then dedupe; a conversion error aborts the
whole reduction. -/
def dedupeToLatest (sort : List Row → List Row) (flat : List FlatRow) :
    Except String (List Row) :=
  (toDatetimeCol flat).map (dedupeToLatestRows sort)

/-- In a list sorted ascending by date, the last element bounds every
element. -/
theorem pairwise_getLast_max : ∀ {l : List Row}, l.Pairwise (dateLE · ·) →
    ∀ {r : Row}, l.getLast? = some r → ∀ x ∈ l, x.rating_date ≤ r.rating_date
  | [], _, r, h => by simp at h
  | [a], _, r, hlast => by
    simp only [List.getLast?_singleton, Option.some.injEq] at hlast
    intro x hx
    simp only [List.mem_singleton] at hx
    subst hx
    rw [hlast]
  | a :: b :: l, hp, r, hlast => by
    rw [List.getLast?_cons_cons] at hlast
    have hrec := pairwise_getLast_max (List.pairwise_cons.mp hp).2 hlast
    intro x hx
    rcases List.mem_cons.mp hx with rfl | hx2
    · have hr : r ∈ b :: l := List.mem_of_mem_getLast? (by rw [hlast]; rfl)
      have := (List.pairwise_cons.mp hp).1 r hr
      simpa [dateLE] using this
    · exact hrec x hx2

theorem firstKeys_aux_mem (rows : List Row) :
    ∀ (acc : List RowKey) (k : RowKey),
      k ∈ rows.foldl (fun ks r => if r.key ∈ ks then ks else ks ++ [r.key]) acc
        ↔ k ∈ acc ∨ ∃ r ∈ rows, r.key = k := by
  induction rows with
  | nil => simp
  | cons r rows ih =>
    intro acc k
    simp only [List.foldl_cons]
    by_cases hr : r.key ∈ acc
    · rw [if_pos hr, ih]
      constructor
      · rintro (h | ⟨s, hs, hk⟩)
        · exact Or.inl h
        · exact Or.inr ⟨s, List.mem_cons_of_mem _ hs, hk⟩
      · rintro (h | ⟨s, hs, hk⟩)
        · exact Or.inl h
        · rcases List.mem_cons.mp hs with rfl | hs
          · exact Or.inl (hk ▸ hr)
          · exact Or.inr ⟨s, hs, hk⟩
    · rw [if_neg hr, ih]
      simp only [List.mem_append, List.mem_singleton]
      constructor
      · rintro ((h | h) | ⟨s, hs, hk⟩)
        · exact Or.inl h
        · exact Or.inr ⟨r, List.mem_cons_self _ _, h.symm⟩
        · exact Or.inr ⟨s, List.mem_cons_of_mem _ hs, hk⟩
      · rintro (h | ⟨s, hs, hk⟩)
        · exact Or.inl (Or.inl h)
        · rcases List.mem_cons.mp hs with rfl | hs
          · exact Or.inl (Or.inr hk.symm)
          · exact Or.inr ⟨s, hs, hk⟩

theorem firstKeys_mem (rows : List Row) (k : RowKey) :
    k ∈ firstKeys rows ↔ ∃ r ∈ rows, r.key = k := by
  rw [firstKeys, firstKeys_aux_mem]
  simp

theorem firstKeys_aux_nodup (rows : List Row) :
    ∀ (acc : List RowKey), acc.Nodup →
      (rows.foldl (fun ks r => if r.key ∈ ks then ks else ks ++ [r.key]) acc).Nodup := by
  induction rows with
  | nil => exact fun acc h => h
  | cons r rows ih =>
    intro acc hacc
    simp only [List.foldl_cons]
    by_cases hr : r.key ∈ acc
    · rw [if_pos hr]
      exact ih acc hacc
    · rw [if_neg hr]
      refine ih _ ?_
      simp [List.nodup_append, hacc, hr]

theorem firstKeys_nodup (rows : List Row) : (firstKeys rows).Nodup :=
  firstKeys_aux_nodup rows [] (by simp)

theorem lastWithKey_key {rows : List Row} {k : RowKey} {r : Row}
    (h : lastWithKey rows k = some r) : r.key = k := by
  have h' : (rows.filter fun s => decide (s.key = k)).getLast? = some r := h
  have hmem : r ∈ rows.filter fun s => decide (s.key = k) :=
    List.mem_of_mem_getLast? (by rw [h']; rfl)
  simpa using (List.mem_filter.mp hmem).2

theorem lastWithKey_isSome {rows : List Row} {k : RowKey}
    (h : ∃ r ∈ rows, r.key = k) : ∃ r, lastWithKey rows k = some r := by
  rcases h with ⟨r, hr, hk⟩
  rw [lastWithKey]
  cases hlast : (rows.filter fun s => decide (s.key = k)).getLast? with
  | none =>
    rw [List.getLast?_eq_none_iff] at hlast
    exact absurd hlast (List.ne_nil_of_mem (List.mem_filter.mpr ⟨hr, by simpa using hk⟩))
  | some s => exact ⟨s, rfl⟩

theorem lastWithKey_eq_none {rows : List Row} {k : RowKey}
    (h : ¬∃ r ∈ rows, r.key = k) : lastWithKey rows k = none := by
  rw [lastWithKey, List.getLast?_eq_none_iff, List.filter_eq_nil_iff]
  intro r hr
  simp only [decide_eq_true_eq]
  exact fun hk => h ⟨r, hr, hk⟩

theorem filter_filterMap_not_mem (rows : List Row) :
    ∀ (ks : List RowKey) (k : RowKey), k ∉ ks →
      ((ks.filterMap fun k2 =>
          if keyComplete k2 then lastWithKey rows k2 else none).filter
        fun r => decide (r.key = k)) = [] := by
  intro ks
  induction ks with
  | nil => simp
  | cons k2 ks ih =>
    intro k hk
    simp only [List.mem_cons, not_or] at hk
    rw [List.filterMap_cons]
    by_cases hc : keyComplete k2 = true
    · rw [if_pos hc]
      cases h : lastWithKey rows k2 with
      | none => exact ih k hk.2
      | some r =>
        rw [List.filter_cons_of_neg ?_]
        · exact ih k hk.2
        · simp [lastWithKey_key h]
          exact fun h2 => hk.1 h2.symm
    · rw [if_neg hc]
      exact ih k hk.2

theorem filter_filterMap_aux (rows : List Row) :
    ∀ (ks : List RowKey) (k : RowKey), ks.Nodup →
      (k ∈ ks ↔ ∃ r ∈ rows, r.key = k) →
      ((ks.filterMap fun k2 =>
          if keyComplete k2 then lastWithKey rows k2 else none).filter
          fun r => decide (r.key = k))
        = if keyComplete k then (lastWithKey rows k).toList else [] := by
  intro ks
  induction ks with
  | nil =>
    intro k _ hmem
    simp only [List.not_mem_nil, false_iff] at hmem
    simp [lastWithKey_eq_none hmem]
  | cons k2 ks ih =>
    intro k hnd hmem
    rw [List.filterMap_cons]
    by_cases hkk : k = k2
    · subst hkk
      by_cases hc : keyComplete k = true
      · rw [if_pos hc, if_pos hc]
        obtain ⟨r, hr⟩ := lastWithKey_isSome (hmem.mp (by simp))
        rw [hr, List.filter_cons_of_pos (by simp [lastWithKey_key hr]),
          filter_filterMap_not_mem rows ks k (List.nodup_cons.mp hnd).1]
        simp
      · rw [if_neg hc, if_neg hc]
        exact filter_filterMap_not_mem rows ks k (List.nodup_cons.mp hnd).1
    · have hmem2 : k ∈ ks ↔ ∃ r ∈ rows, r.key = k := by
        constructor
        · intro h
          exact hmem.mp (List.mem_cons_of_mem _ h)
        · intro h
          rcases List.mem_cons.mp (hmem.mpr h) with h2 | h2
          · exact absurd h2 hkk
          · exact h2
      by_cases hc2 : keyComplete k2 = true
      · rw [if_pos hc2]
        cases h : lastWithKey rows k2 with
        | none => exact ih k (List.nodup_cons.mp hnd).2 hmem2
        | some r =>
          rw [List.filter_cons_of_neg ?_]
          · exact ih k (List.nodup_cons.mp hnd).2 hmem2
          · simp [lastWithKey_key h]
            exact fun h2 => hkk h2.symm
      · rw [if_neg hc2]
        exact ih k (List.nodup_cons.mp hnd).2 hmem2

theorem filter_groupLast (rows : List Row) (k : RowKey) :
    (groupLast rows).filter (fun r => decide (r.key = k))
      = if keyComplete k then (lastWithKey rows k).toList else [] :=
  filter_filterMap_aux rows (firstKeys rows) k (firstKeys_nodup rows)
    (firstKeys_mem rows k)

/-- C1 amended: over every sort satisfying the `sort_values` contract, the
dedupe reduction returns at most one row per key.  A key with a missing
`project_id` or `project_name` yields no output row at all (pandas `groupby`
drops it, `dropna=True` default).  A complete key occurring in the batch
yields exactly one row; that row belongs to the key's group and attains the
group's maximum `rating_date`.  Which of several maximum-date rows is kept
depends on the sort's unspecified tie order (`kind="quicksort"` is not
stable), so no later-row-wins tie-break is stated. -/
theorem dedupe_latest_per_group_amended
    (sort : List Row → List Row) (hsort : SortsByDate sort)
    (rows : List Row) (k : RowKey) :
    (keyComplete k = false →
        (dedupeToLatestRows sort rows).filter (fun r => decide (r.key = k)) = [])
    ∧ (keyComplete k = true →
        (rows.filter (fun r => decide (r.key = k)) = [] →
            (dedupeToLatestRows sort rows).filter (fun r => decide (r.key = k)) = [])
        ∧ (rows.filter (fun r => decide (r.key = k)) ≠ [] →
            ∃ r, (dedupeToLatestRows sort rows).filter
                  (fun s => decide (s.key = k)) = [r]
              ∧ r ∈ rows.filter (fun s => decide (s.key = k))
              ∧ ∀ s ∈ rows.filter (fun s => decide (s.key = k)),
                  s.rating_date ≤ r.rating_date)) := by
  obtain ⟨hperm, hsorted⟩ := hsort
  have hfg := filter_groupLast (sort rows) k
  have hpermf := (hperm rows).filter (fun r => decide (r.key = k))
  constructor
  · intro hk
    rw [dedupeToLatestRows, hfg, hk]
    simp
  · intro hk
    constructor
    · intro hempty
      rw [dedupeToLatestRows, hfg, if_pos hk]
      have hzero : (sort rows).filter (fun r => decide (r.key = k)) = [] := by
        rw [hempty] at hpermf
        exact hpermf.eq_nil
      rw [lastWithKey, hzero]
      rfl
    · intro hne
      have hne2 : (sort rows).filter (fun r => decide (r.key = k)) ≠ [] := by
        intro h0
        rw [h0] at hpermf
        exact hne hpermf.symm.eq_nil
      obtain ⟨r, hr⟩ : ∃ r, lastWithKey (sort rows) k = some r := by
        rw [lastWithKey]
        cases h0 : ((sort rows).filter fun r => decide (r.key = k)).getLast? with
        | none => exact absurd (List.getLast?_eq_none_iff.mp h0) hne2
        | some s => exact ⟨s, rfl⟩
      have hlast : ((sort rows).filter fun s => decide (s.key = k)).getLast?
          = some r := hr
      refine ⟨r, ?_, ?_, ?_⟩
      · rw [dedupeToLatestRows, hfg, if_pos hk, hr]
        rfl
      · have hmem : r ∈ (sort rows).filter (fun s => decide (s.key = k)) :=
          List.mem_of_mem_getLast? (by rw [hlast]; rfl)
        exact hpermf.mem_iff.mp hmem
      · intro s hs
        have hs2 : s ∈ (sort rows).filter (fun s2 => decide (s2.key = k)) :=
          hpermf.mem_iff.mpr hs
        have hpair : ((sort rows).filter
            fun s2 => decide (s2.key = k)).Pairwise (dateLE · ·) :=
          List.Pairwise.sublist (List.filter_sublist _) (hsorted rows)
        exact pairwise_getLast_max hpair hlast s hs2

/-- A flattened row whose `project_id` is missing - the degenerate shape a
malformed payload produces via the aggregator (claim C4). -/
def nullKeyRow : Row :=
  ⟨none, some "Alpha", 20240101, "Schedule", "Red", "missing id", "fix"⟩

/-- C1 counterexample: the dedupe reduction does NOT return one row per
distinct key observed in the batch.  For the one-row batch whose
`project_id` is missing, pandas `groupby` (default `dropna=True`) drops the
key and the reduction returns no row at all.  A one-row batch is left
unchanged by every sort satisfying the contract, so the concrete
`mergeSortByDate` instance here exhibits the program behavior for any
admissible sort. -/
theorem dedupe_drops_missing_key :
    dedupeToLatestRows mergeSortByDate [nullKeyRow] = []
    ∧ [nullKeyRow].map Row.key = [(none, some "Alpha", "Schedule")] := by
  constructor
  · rw [dedupeToLatestRows, mergeSortByDate, List.mergeSort_singleton]
    decide
  · decide

def demoRows : List Row :=
  [⟨some "PRJ1", some "Alpha", 20240101, "Schedule", "Red", "j1", "r1"⟩,
    ⟨some "PRJ1", some "Alpha", 20240201, "Schedule", "Green", "j2", "r2"⟩,
    ⟨some "PRJ2", some "Beta", 20240105, "Budget", "Amber", "j3", "r3"⟩]

def demoKey : RowKey := (some "PRJ1", some "Alpha", "Schedule")

/-- C1 amended witness: the amended theorem instantiated at the admissible
`mergeSortByDate` sort and a concrete batch with a complete occurring key. -/
theorem dedupe_latest_per_group_amended_witness :
    ∃ r, (dedupeToLatestRows mergeSortByDate demoRows).filter
            (fun s => decide (s.key = demoKey)) = [r]
      ∧ r ∈ demoRows.filter (fun s => decide (s.key = demoKey))
      ∧ ∀ s ∈ demoRows.filter (fun s => decide (s.key = demoKey)),
          s.rating_date ≤ r.rating_date :=
  ((dedupe_latest_per_group_amended mergeSortByDate mergeSortByDate_sorts
      demoRows demoKey).2 (by decide)).2 (by decide)

theorem officerRole_stripped : pyStripStr officerRole = officerRole := by decide

theorem extractEntry_officer (jd : JsonDict) :
    extractEntry ⟨some officerRole, some jd⟩
      = some ⟨officerRole, jd.project_id, jd.project_name, jd.rating_date,
          jd.optic_ratings.getD []⟩ := by
  rw [extractEntry]
  simp [officerRole_stripped]

theorem extractEntry_officer_no_dict :
    extractEntry ⟨some officerRole, none⟩
      = some ⟨officerRole, none, none, none, []⟩ := by
  rw [extractEntry]
  simp [officerRole_stripped, JsonDict.project_id, JsonDict.project_name,
    JsonDict.rating_date, JsonDict.optic_ratings]

/-- C4: a consolidating-role entry with a malformed structured payload does
not abort extraction.  Whatever fields of the payload are missing (first
conjunct: arbitrary field availability `jd`; second conjunct: the whole
`json_dict` missing), the record still contributes one ProjectRating whose
absent fields default to `none` / `[]`, and the records before and after it
are extracted exactly as they would be on their own. -/
theorem extract_malformed_degrades (pre post : List TaskItem) (jd : JsonDict) :
    (extractResults (pre ++ ⟨some [⟨some officerRole, some jd⟩]⟩ :: post)
        = extractResults pre
          ++ ⟨officerRole, jd.project_id, jd.project_name, jd.rating_date,
                jd.optic_ratings.getD []⟩ :: extractResults post)
    ∧ (extractResults (pre ++ ⟨some [⟨some officerRole, none⟩]⟩ :: post)
        = extractResults pre
          ++ ⟨officerRole, none, none, none, []⟩ :: extractResults post) := by
  constructor
  · rw [extractResults, List.flatMap_append, List.flatMap_cons]
    rw [show (TaskItem.mk (some [⟨some officerRole, some jd⟩])).tasks_output.getD []
          = [⟨some officerRole, some jd⟩] from rfl]
    rw [List.filterMap_cons, extractEntry_officer]
    rfl
  · rw [extractResults, List.flatMap_append, List.flatMap_cons]
    rw [show (TaskItem.mk (some [⟨some officerRole, none⟩])).tasks_output.getD []
          = [⟨some officerRole, none⟩] from rfl]
    rw [List.filterMap_cons, extractEntry_officer_no_dict]
    rfl

/-- A well-formed flattened row: ISO date, parseable. -/
def goodFlat : FlatRow :=
  ⟨some "PRJ1", some "Alpha", some "2024-02-01", "Schedule", "Green",
    "on track", "keep going"⟩

/-- A flattened row whose `rating_date` cannot be parsed. -/
def badFlat : FlatRow :=
  ⟨some "PRJ2", some "Beta", some "not-a-date", "Budget", "Red",
    "overrun", "rescope"⟩

/-- C5 (evidence): the dedupe reduction does NOT exclude a row with an
unparsable `rating_date` and continue; `pd.to_datetime` is called with its
default `errors="raise"`, so the whole batch conversion raises and
`generateReport` produces no output at all, while the same batch without the
bad row converts fine.  This contradicts the exclude-log-continue policy the
specification states for this step. -/
theorem unparsable_date_aborts_batch (sort : List Row → List Row) :
    dedupeToLatest sort [goodFlat, badFlat] = .error "not-a-date"
    ∧ toDatetimeCol [goodFlat]
        = .ok [⟨some "PRJ1", some "Alpha", 20240201, "Schedule", "Green",
            "on track", "keep going"⟩] := by
  have h1 : toDatetimeCol [goodFlat]
      = .ok [⟨some "PRJ1", some "Alpha", 20240201, "Schedule", "Green",
          "on track", "keep going"⟩] := by
    rw [toDatetimeCol, show goodFlat.rating_date.bind parseDate = some 20240201 by decide]
    rfl
  refine ⟨?_, h1⟩
  rw [dedupeToLatest, toDatetimeCol,
    show goodFlat.rating_date.bind parseDate = some 20240201 by decide,
    toDatetimeCol, show badFlat.rating_date.bind parseDate = none by decide]
  rfl

/-! ## Workbook export (`generateReport` lines 72-82) -/

/-- The spreadsheet artifact: a header row and data rows. -/
structure Workbook where
  header : List String
  rows : List Row
deriving DecidableEq, Repr

/-- Column order of `df_last_records` after `reset_index()`: the three group
keys first, then the remaining columns in frame order. -/
def excelColumns : List String :=
  ["project_id", "project_name", "optic_name", "rating_date", "rating",
    "justification", "recommendation"]

set_option linter.unusedVariables false in
/-- Line 81, `df_last_records.to_excel(output_file, index=False)`: the call
writes a fresh workbook containing the header and exactly the given rows;
`prev`, the artifact previously stored at the path, has no influence on the
result (the file is simply overwritten). -/
def to_excel (rows : List Row) (prev : Option Workbook) : Workbook :=
  ⟨excelColumns, rows⟩

def wbRow1 : Row := ⟨some "PRJ1", some "Alpha", 20240101, "Schedule", "Red", "slip", "recover"⟩

def wbRow2 : Row := ⟨some "PRJ1", some "Alpha", 20240201, "Schedule", "Green", "ok", "keep"⟩

/-- C9 counterexample: a second run against an artifact that already holds
`wbRow1` and writes `[wbRow2]` does not append to the existing artifact - its
result holds only `[wbRow2]`, not `[wbRow1, wbRow2]` as the claim requires
for subsequent runs.  (The source comment on line 80 itself says
"overwrite existing file".) -/
theorem export_does_not_append :
    (to_excel [wbRow2] (some ⟨excelColumns, [wbRow1]⟩)).rows = [wbRow2]
    ∧ [wbRow2] ≠ [wbRow1, wbRow2] := by
  constructor
  · rfl
  · decide

/-- C9 amended: the export writes the artifact fresh on every run - the first
run and every subsequent run against the same path behave identically,
overwriting whatever was there with the header and exactly the deduped rows. -/
theorem export_always_fresh (prev : Option Workbook) (rows : List Row) :
    to_excel rows prev = to_excel rows none
    ∧ to_excel rows prev = ⟨excelColumns, rows⟩ :=
  ⟨rfl, rfl⟩

/-! ## Output path derivation (`generateReport` lines 72-76) -/

/-- `os.path.splitext` (posix): split the extension off at the last dot of
the final path component, unless every character of that component before the
dot is itself a dot (leading dots do not start an extension). -/
def splitext (p : String) : String × String :=
  let cs := p.data
  let rev := cs.reverse
  let tail := rev.takeWhile fun c => (c != '.') && (c != '/')
  match rev.drop tail.length with
  | '.' :: rest =>
    if (rest.takeWhile fun c => c != '/').any (fun c => c != '.') then
      (String.mk (cs.take (cs.length - (tail.length + 1))),
        String.mk (cs.drop (cs.length - (tail.length + 1))))
    else (p, "")
  | _ => (p, "")

/-- Lines 72-76: `base, ext = os.path.splitext(output_file)`; the `.xlsx`
name replaces the input name only when the extension is exactly `.json`. -/
def outputFileName (jsonfile : String) : String :=
  let pair := splitext jsonfile
  if pair.2 = ".json" then pair.1 ++ ".xlsx" else jsonfile

theorem string_mk_append (a b : List Char) :
    String.mk a ++ String.mk b = String.mk (a ++ b) := rfl

theorem splitext_append (p : String) :
    (splitext p).1 ++ (splitext p).2 = p := by
  rw [splitext]
  split
  · split
    · rw [string_mk_append, List.take_append_drop]
    · simp
  · simp

/-- C10: `generateReport` derives the workbook path from the input path by
replacing the extension with `.xlsx` exactly when the `splitext` extension is
`.json` (and then the path genuinely changes); for every input path with any
other extension the workbook path is the input path itself, so the workbook
write overwrites the input artifact.  The first conjunct records that
`splitext` reassembles the input, so the `.json` case replaces only the
extension. -/
theorem output_path_replaces_only_json (p : String) :
    (splitext p).1 ++ (splitext p).2 = p
    ∧ ((splitext p).2 = ".json" →
        outputFileName p = (splitext p).1 ++ ".xlsx" ∧ outputFileName p ≠ p)
    ∧ ((splitext p).2 ≠ ".json" → outputFileName p = p) := by
  refine ⟨splitext_append p, fun hj => ⟨?_, ?_⟩, fun hn => ?_⟩
  · simp only [outputFileName]
    rw [if_pos hj]
  · have hout : outputFileName p = (splitext p).1 ++ ".xlsx" := by
      simp only [outputFileName]
      rw [if_pos hj]
    rw [hout]
    intro heq
    have hre : (splitext p).1 ++ ".json" = p := by
      rw [← hj]
      exact splitext_append p
    have hsame : (splitext p).1 ++ ".xlsx" = (splitext p).1 ++ ".json" :=
      heq.trans hre.symm
    have hdata := congrArg String.data hsame
    simp only [String.data_append] at hdata
    have := List.append_cancel_left hdata
    exact absurd this (by decide)
  · simp only [outputFileName]
    rw [if_neg hn]

/-- C10 witness: a `.json` input maps to the `.xlsx` sibling; any other
extension leaves the path untouched (so the workbook overwrites the input). -/
theorem output_path_replaces_only_json_witness :
    ((splitext "report.json").2 = ".json"
      ∧ outputFileName "report.json" = (splitext "report.json").1 ++ ".xlsx"
      ∧ outputFileName "report.json" ≠ "report.json")
    ∧ ((splitext "report.txt").2 ≠ ".json"
      ∧ outputFileName "report.txt" = "report.txt") :=
  ⟨⟨by decide, (output_path_replaces_only_json "report.json").2.1 (by decide)⟩,
    by decide, (output_path_replaces_only_json "report.txt").2.2 (by decide)⟩

/-! ## Rating store (`database_handler.bulk_insert_risk_assessments`) -/

/-- One record handed to the batch upsert. -/
structure Assessment where
  project_id : String
  project_name : String
  rating_date : String
  optic_name : String
  rating : String
  justification : String
deriving DecidableEq, Repr

/-- The unique constraint of `risk_assessments`:
`(project_id, rating_date, optic_name)`. -/
abbrev AssessKey := String × String × String

def Assessment.key (a : Assessment) : AssessKey :=
  (a.project_id, a.rating_date, a.optic_name)

/-- A stored `risk_assessments` tuple (serial id column omitted). -/
structure StoredAssessment where
  project_name : String
  rating : String
  justification : String
  created_at : Nat
  updated_at : Nat
deriving DecidableEq, Repr

/-- The `risk_assessments` table, keyed by its unique constraint. -/
abbrev RiskTable := List (AssessKey × StoredAssessment)

/-- One `INSERT ... ON CONFLICT (project_id, rating_date, optic_name)
DO UPDATE SET rating = EXCLUDED.rating, justification =
EXCLUDED.justification, updated_at = CURRENT_TIMESTAMP` (lines 112-121): a
fresh key inserts a full row; a conflicting key overwrites only `rating`,
`justification` and `updated_at`. -/
def upsertAssessment (now : Nat) (t : RiskTable) (a : Assessment) : RiskTable :=
  if t.any (fun kv => kv.1 == a.key) then
    t.map fun kv =>
      if kv.1 == a.key then
        (kv.1, ⟨kv.2.project_name, a.rating, a.justification, kv.2.created_at, now⟩)
      else kv
  else t ++ [(a.key, ⟨a.project_name, a.rating, a.justification, now, now⟩)]

/-- `execute_batch` (line 135): the statements run in order inside one
transaction; the first failing statement raises and abandons the rest.
`fails` marks the records whose statement fails (constraint violation,
connection loss, ...), which the source treats as an opaque exception. -/
def runBatch (fails : Assessment → Bool) (now : Nat) :
    RiskTable → List Assessment → Except Unit RiskTable
  | t, [] => .ok t
  | t, a :: rest =>
    if fails a then .error ()
    else runBatch fails now (upsertAssessment now t a) rest

/-- Lines 105-144 of `database_handler.py`: run the batch; on success commit
and return `true`; on any exception roll the transaction back - restoring the
table as it was before the call - and return `false` instead of raising. -/
def bulk_insert_risk_assessments (fails : Assessment → Bool) (now : Nat)
    (t : RiskTable) (batch : List Assessment) : RiskTable × Bool :=
  match runBatch fails now t batch with
  | .ok t2 => (t2, true)
  | .error _ => (t, false)

theorem runBatch_ok (fails : Assessment → Bool) (now : Nat) :
    ∀ (batch : List Assessment) (t : RiskTable), (∀ a ∈ batch, fails a = false) →
      runBatch fails now t batch = .ok (batch.foldl (upsertAssessment now) t) := by
  intro batch
  induction batch with
  | nil => intro t _; rfl
  | cons a rest ih =>
    intro t h
    rw [runBatch, if_neg (by simp [h a (List.mem_cons_self a rest)])]
    rw [ih _ fun b hb => h b (List.mem_cons_of_mem a hb)]
    rfl

theorem runBatch_error (fails : Assessment → Bool) (now : Nat) :
    ∀ (batch : List Assessment) (t : RiskTable), (∃ a ∈ batch, fails a = true) →
      runBatch fails now t batch = .error () := by
  intro batch
  induction batch with
  | nil => simp
  | cons a rest ih =>
    intro t h
    by_cases ha : fails a = true
    · rw [runBatch, if_pos ha]
    · rw [runBatch, if_neg ha]
      refine ih _ ?_
      rcases h with ⟨b, hb, hfb⟩
      rcases List.mem_cons.mp hb with rfl | hb
      · exact absurd hfb ha
      · exact ⟨b, hb, hfb⟩

/-- C2: `bulk_insert_risk_assessments` is all-or-nothing per batch call.  If
any statement of the batch fails, the whole transaction is rolled back - the
table is returned unchanged - and the call returns `false` instead of
raising; if no statement fails, every row is upserted in order and the call
returns `true`. -/
theorem bulk_insert_atomic (fails : Assessment → Bool) (now : Nat)
    (t : RiskTable) (batch : List Assessment) :
    ((∃ a ∈ batch, fails a = true) →
        bulk_insert_risk_assessments fails now t batch = (t, false))
    ∧ ((∀ a ∈ batch, fails a = false) →
        bulk_insert_risk_assessments fails now t batch
          = (batch.foldl (upsertAssessment now) t, true)) := by
  constructor
  · intro h
    rw [bulk_insert_risk_assessments, runBatch_error fails now batch t h]
  · intro h
    rw [bulk_insert_risk_assessments, runBatch_ok fails now batch t h]

def assess1 : Assessment :=
  ⟨"PRJ1", "Alpha", "2024-02-01", "Schedule", "Green", "on track"⟩

def assess2 : Assessment :=
  ⟨"PRJ1", "Alpha", "2024-02-01", "Budget", "Red", "overrun"⟩

/-- C2 witness: a batch whose second statement fails leaves the table
unchanged and reports `false`; the same call without failures commits the
row and reports `true`. -/
theorem bulk_insert_atomic_witness :
    bulk_insert_risk_assessments (fun a => a.optic_name == "Budget") 7 []
        [assess1, assess2] = ([], false)
    ∧ bulk_insert_risk_assessments (fun _ => false) 7 [] [assess1]
        = ([(assess1.key, ⟨"Alpha", "Green", "on track", 7, 7⟩)], true) := by
  constructor
  · exact (bulk_insert_atomic (fun a => a.optic_name == "Budget") 7 [] [assess1, assess2]).1
      ⟨assess2, by decide, by decide⟩
  · rw [(bulk_insert_atomic (fun _ => false) 7 [] [assess1]).2 (fun a _ => rfl)]
    decide

/-! ## Status-record batch upserts
(`backend/file_handler.process_excel_file_complete` and
`backend/app/main.process_rows`) -/

/-- One spreadsheet row of the status report: the key columns and the
commentary columns; `none` stands for a NaN cell. -/
structure StatusRow where
  number : Option String
  project_name : Option String
  updated : Option String
  portfolio_manager : Option String
  executive_summary : Option String
  comments_on_schedule : Option String
  comments_on_budget : Option String
  comments_on_cost : Option String
  comments_on_resources : Option String
  comments_on_scope : Option String
  comments : Option String
  key_activities_planned : Option String
  last_month_achievements : Option String
  business_value_comment : Option String
deriving DecidableEq, Repr

/-- `safe_get` (lines 167-175 of `file_handler.py`): a missing or NaN cell
becomes the default `""`; any other value is stringified and stripped. -/
def safe_get (v : Option String) : String :=
  match v with
  | none => ""
  | some s => pyStripStr s

/-- `format_section` (lines 177-181 of `file_handler.py`): empty or
whitespace-only content is omitted entirely, anything else becomes a single
labelled section. -/
def format_section (section_name : String) (content : String) : String :=
  if content = "" ∨ pyStripStr content = "" then ""
  else section_name ++ ": " ++ pyStripStr content

/-- A stored `project_data` tuple. -/
structure StoredStatus where
  portfolio_manager : String
  executive_summary : String
  comments_on_schedule : String
  comments_on_budget : String
  comments_on_cost : String
  comments_on_resources : String
  comments_on_scope : String
  comments : String
  key_activities_planned : String
  last_month_achievements : String
  business_value_comment : String
  combined_data : String
  processed_at : Nat
deriving DecidableEq, Repr

/-- The unique constraint of `project_data`:
`(project_id, project_name, updated)` with the date as its ordinal. -/
abbrev StatusKey := String × String × Nat

abbrev StatusTable := List (StatusKey × StoredStatus)

/-- The validation and section-building part of `process_single_row`
(lines 72-126 of `file_handler.py`), the portion that runs before any
database statement: missing key fields or an unparsable date reject the row
with the corresponding message; otherwise the formatted sections, the
combined text, and the upsert key are produced. -/
def process_single_row (r : StatusRow) :
    Except String (StatusKey × StoredStatus) :=
  let project_id := safe_get r.number
  let project_name := safe_get r.project_name
  let updated_value := safe_get r.updated
  if project_id = "" then .error "Missing project ID (Number)"
  else if project_name = "" then .error "Missing project name"
  else if updated_value = "" then .error "Missing updated date"
  else
    match parseDate updated_value with
    | none => .error "Invalid date format"
    | some updated =>
      let executive_summary := format_section "Executive Summary" (safe_get r.executive_summary)
      let comments_on_schedule := format_section "Comments on Schedule" (safe_get r.comments_on_schedule)
      let comments_on_budget := format_section "Comments on Budget" (safe_get r.comments_on_budget)
      let comments_on_cost := format_section "Comments on Cost" (safe_get r.comments_on_cost)
      let comments_on_resources := format_section "Comments on Resources" (safe_get r.comments_on_resources)
      let comments_on_scope := format_section "Comments on Scope" (safe_get r.comments_on_scope)
      let comments := format_section "Comments" (safe_get r.comments)
      let key_activities_planned := format_section "Key Activities Planned" (safe_get r.key_activities_planned)
      let last_month_achievements := format_section "Last Month Achievements" (safe_get r.last_month_achievements)
      let business_value_comment := format_section "Business Value Comment" (safe_get r.business_value_comment)
      let combined_sections := [executive_summary, comments_on_schedule,
        comments_on_budget, comments_on_cost, comments_on_resources,
        comments_on_scope, comments, key_activities_planned,
        last_month_achievements, business_value_comment]
      let combined_data := String.intercalate "\n"
        (combined_sections.filter fun s => pyStripStr s ≠ "")
      .ok ((project_id, project_name, updated),
        ⟨safe_get r.portfolio_manager, executive_summary, comments_on_schedule,
          comments_on_budget, comments_on_cost, comments_on_resources,
          comments_on_scope, comments, key_activities_planned,
          last_month_achievements, business_value_comment, combined_data, 0⟩)

/-- `INSERT INTO project_data ... ON CONFLICT (project_id, project_name,
updated) DO UPDATE SET ... processed_at = CURRENT_TIMESTAMP` (lines 129-163):
insert or overwrite the whole tuple, refreshing `processed_at`. -/
def upsertStatus (now : Nat) (t : StatusTable) (kv : StatusKey × StoredStatus) :
    StatusTable :=
  let stored := StoredStatus.mk kv.2.portfolio_manager kv.2.executive_summary
    kv.2.comments_on_schedule kv.2.comments_on_budget kv.2.comments_on_cost
    kv.2.comments_on_resources kv.2.comments_on_scope kv.2.comments
    kv.2.key_activities_planned kv.2.last_month_achievements
    kv.2.business_value_comment kv.2.combined_data now
  if t.any (fun e => e.1 == kv.1) then
    t.map fun e => if e.1 == kv.1 then (e.1, stored) else e
  else t ++ [(kv.1, stored)]

/-- The state of the one shared psycopg2 connection during
`process_excel_file_complete`: `txn` is the pending transaction (the
snapshot table with the uncommitted upserts applied), `aborted` records
whether a failed statement has put the transaction in the failed state, and
`processed`, `skipped`, `errors` are the loop's running totals. -/
structure ExcelBatch where
  txn : StatusTable
  aborted : Bool
  processed : Nat
  skipped : Nat
  errors : List String
deriving DecidableEq, Repr

/-- The body of the row loop (lines 37-50 of `file_handler.py`) over the one
shared connection.  A row failing validation returns its error dict before
any database statement runs, so it is only counted and logged.  A row whose
`cursor.execute` runs while the transaction is aborted raises
`InFailedSqlTransaction` ("current transaction is aborted"), which the
per-row `except` records as one more skip.  A statement failure itself
(abstracted by `dbFail`) raises, is recorded the same way, and puts the
shared transaction into the aborted state for every later statement. -/
def processRowPg (dbFail : StatusRow → Bool) (now : Nat)
    (acc : ExcelBatch) (r : StatusRow) : ExcelBatch :=
  match process_single_row r with
  | .error e =>
    ⟨acc.txn, acc.aborted, acc.processed, acc.skipped + 1, acc.errors ++ [e]⟩
  | .ok kv =>
    if acc.aborted then
      ⟨acc.txn, true, acc.processed, acc.skipped + 1,
        acc.errors ++ ["current transaction is aborted"]⟩
    else if dbFail r then
      ⟨acc.txn, true, acc.processed, acc.skipped + 1,
        acc.errors ++ ["database error"]⟩
    else
      ⟨upsertStatus now acc.txn kv, false, acc.processed + 1, acc.skipped,
        acc.errors⟩

/-- `process_excel_file_complete` (lines 32-61 of `file_handler.py`): one
connection, one transaction, one `connection.commit()` after the loop.
`COMMIT` issued on an aborted transaction is executed as `ROLLBACK` without
raising, so the persisted table (first component) is the pre-call state
whenever any statement failed, and the accumulated transaction otherwise;
the second component is the loop's final accounting. -/
def process_excel_file_complete (dbFail : StatusRow → Bool) (now : Nat)
    (t : StatusTable) (rows : List StatusRow) : StatusTable × ExcelBatch :=
  let final := rows.foldl (processRowPg dbFail now) ⟨t, false, 0, 0, []⟩
  (if final.aborted then t else final.txn, final)

theorem processRowPg_shift (dbFail : StatusRow → Bool) (now : Nat) :
    ∀ (rows : List StatusRow) (t : StatusTable) (ab : Bool) (p s : Nat)
      (es : List String),
      rows.foldl (processRowPg dbFail now) ⟨t, ab, p, s, es⟩
        = ⟨(rows.foldl (processRowPg dbFail now) ⟨t, ab, 0, 0, []⟩).txn,
            (rows.foldl (processRowPg dbFail now) ⟨t, ab, 0, 0, []⟩).aborted,
            p + (rows.foldl (processRowPg dbFail now) ⟨t, ab, 0, 0, []⟩).processed,
            s + (rows.foldl (processRowPg dbFail now) ⟨t, ab, 0, 0, []⟩).skipped,
            es ++ (rows.foldl (processRowPg dbFail now) ⟨t, ab, 0, 0, []⟩).errors⟩ := by
  intro rows
  induction rows with
  | nil => intro t ab p s es; simp
  | cons r rows ih =>
    intro t ab p s es
    rw [List.foldl_cons, List.foldl_cons]
    cases h : process_single_row r with
    | error e =>
      simp only [processRowPg, h]
      rw [ih t ab p (s + 1) (es ++ [e]), ih t ab 0 (0 + 1) ([] ++ [e])]
      simp
      omega
    | ok kv =>
      cases ab with
      | true =>
        simp only [processRowPg, h, if_pos]
        rw [ih t true p (s + 1) (es ++ ["current transaction is aborted"]),
          ih t true 0 (0 + 1) ([] ++ ["current transaction is aborted"])]
        simp
        omega
      | false =>
        cases hd : dbFail r with
        | true =>
          simp only [processRowPg, h, hd, Bool.false_eq_true, if_false, if_true]
          rw [ih t true p (s + 1) (es ++ ["database error"]),
            ih t true 0 (0 + 1) ([] ++ ["database error"])]
          simp
          omega
        | false =>
          simp only [processRowPg, h, hd, Bool.false_eq_true, if_false]
          rw [ih (upsertStatus now t kv) false (p + 1) s es,
            ih (upsertStatus now t kv) false (0 + 1) 0 []]
          simp
          omega

/-- One row payload of the `/api/process-rows` request body (`RowData` of
`backend/app/main.py`). -/
structure RowData where
  project_id : String
  project_name : String
  updated : String
  portfolio_manager : String
  executive_summary : String
  comments_on_schedule : String
  comments_on_budget : String
  comments_on_cost : String
  comments_on_resources : String
  comments_on_scope : String
  comments : String
  key_activities_planned : String
  last_month_achievements : String
  business_value_comment : String
  combined_data : String
deriving DecidableEq, Repr

/-- Conflict key of `project_data` on the async path: `parse_datetime`
(lines 311-315 of `main.py`) returns `None` on a parse failure, so the
`updated` component is optional. -/
abbrev AsyncKey := String × String × Option Nat

def RowData.key (r : RowData) : AsyncKey :=
  (r.project_id, r.project_name, parseDate r.updated)

abbrev ProjectDataTable := List (AsyncKey × (RowData × Nat))

/-- The `INSERT ... ON CONFLICT (project_id, project_name, updated) DO
UPDATE` of `main.process_single_row` (lines 321-356): insert or overwrite
the whole tuple, refreshing `processed_at`. -/
def upsertRowData (now : Nat) (t : ProjectDataTable) (r : RowData) :
    ProjectDataTable :=
  if t.any (fun e => e.1 == r.key) then
    t.map fun e => if e.1 == r.key then (e.1, (r, now)) else e
  else t ++ [(r.key, (r, now))]

/-- `process_single_row` of `main.py` (lines 317-362): the one
`connection.execute` runs in its own implicit asyncpg transaction and
auto-commits on success; any exception is caught inside the function and
reported as `False`, leaving the table untouched. -/
def process_single_row_async (dbFail : RowData → Bool) (now : Nat)
    (t : ProjectDataTable) (r : RowData) : ProjectDataTable × Bool :=
  if dbFail r then (t, false) else (upsertRowData now t r, true)

/-- The body of the `process_rows` loop (lines 286-289 of `main.py`):
thread the table through `process_single_row` and count the successes. -/
def processRowAsync (dbFail : RowData → Bool) (now : Nat)
    (acc : ProjectDataTable × Nat) (r : RowData) : ProjectDataTable × Nat :=
  match process_single_row_async dbFail now acc.1 r with
  | (t2, true) => (t2, acc.2 + 1)
  | (t2, false) => (t2, acc.2)

/-- `process_rows` (lines 277-307 of `main.py`): fold the per-row processor
over the batch; there is no shared transaction, so no commit step. -/
def process_rows (dbFail : RowData → Bool) (now : Nat)
    (t : ProjectDataTable) (rows : List RowData) : ProjectDataTable × Nat :=
  rows.foldl (processRowAsync dbFail now) (t, 0)

/-- C3 amended: the failure isolation each path actually provides.  On the
psycopg2 path (`process_excel_file_complete`) a row failing VALIDATION never
touches the shared transaction: dropping it from any batch position leaves
the persisted table and the processed count unchanged and contributes
exactly one skip and one error entry.  On the asyncpg path (`process_rows`)
even a DATABASE failure is isolated, because every statement runs in its own
implicit transaction: dropping the failing row changes nothing at all.  (A
database-statement failure on the psycopg2 path is NOT isolated - see the
counterexample - because the shared transaction aborts and the final commit
rolls every row back.) -/
theorem failing_row_isolation_amended
    (dbFail : StatusRow → Bool) (now : Nat) (t : StatusTable)
    (pre post : List StatusRow) (r : StatusRow) (e : String)
    (h : process_single_row r = .error e)
    (dbFailA : RowData → Bool) (nowA : Nat) (tA : ProjectDataTable)
    (preA postA : List RowData) (rA : RowData)
    (hA : dbFailA rA = true) :
    ((process_excel_file_complete dbFail now t (pre ++ r :: post)).1
        = (process_excel_file_complete dbFail now t (pre ++ post)).1
      ∧ (process_excel_file_complete dbFail now t (pre ++ r :: post)).2.processed
          = (process_excel_file_complete dbFail now t (pre ++ post)).2.processed
      ∧ (process_excel_file_complete dbFail now t (pre ++ r :: post)).2.skipped
          = (process_excel_file_complete dbFail now t (pre ++ post)).2.skipped + 1
      ∧ (process_excel_file_complete dbFail now t (pre ++ r :: post)).2.errors.length
          = (process_excel_file_complete dbFail now t (pre ++ post)).2.errors.length + 1)
    ∧ process_rows dbFailA nowA tA (preA ++ rA :: postA)
        = process_rows dbFailA nowA tA (preA ++ postA) := by
  constructor
  · rw [process_excel_file_complete, process_excel_file_complete,
      List.foldl_append, List.foldl_append, List.foldl_cons]
    set A := pre.foldl (processRowPg dbFail now) ⟨t, false, 0, 0, []⟩ with hA2
    have hstep : processRowPg dbFail now A r
        = ⟨A.txn, A.aborted, A.processed, A.skipped + 1, A.errors ++ [e]⟩ := by
      rw [processRowPg, h]
    rw [hstep]
    rw [processRowPg_shift dbFail now post A.txn A.aborted A.processed
      (A.skipped + 1) (A.errors ++ [e])]
    rw [show post.foldl (processRowPg dbFail now) A
          = post.foldl (processRowPg dbFail now)
              ⟨A.txn, A.aborted, A.processed, A.skipped, A.errors⟩ from rfl]
    rw [processRowPg_shift dbFail now post A.txn A.aborted A.processed
      A.skipped A.errors]
    refine ⟨rfl, rfl, ?_, ?_⟩
    · dsimp only
      omega
    · dsimp only
      simp only [List.length_append, List.length_cons, List.length_nil]
      omega
  · rw [process_rows, process_rows, List.foldl_append, List.foldl_append,
      List.foldl_cons]
    have hstep : ∀ acc : ProjectDataTable × Nat,
        processRowAsync dbFailA nowA acc rA = acc := by
      intro acc
      rw [processRowAsync, process_single_row_async, if_pos hA]
    rw [hstep]

/-- A valid status row. -/
def statusRowOk : StatusRow :=
  ⟨some "PRJ1", some "Alpha", some "2024-02-01", some "PM", some "all good",
    none, none, none, none, none, none, none, none, none⟩

/-- A status row with an empty project id, which validation rejects. -/
def statusRowBad : StatusRow :=
  ⟨some "  ", some "Beta", some "2024-02-01", none, some "broken",
    none, none, none, none, none, none, none, none, none⟩

/-- A second valid status row, on which the demo database failure fires. -/
def statusRowB : StatusRow :=
  ⟨some "PRJ2", some "Beta", some "2024-02-01", none, none,
    none, none, none, none, none, none, none, none, none⟩

/-- A third valid status row, processed after the failing one. -/
def statusRowC : StatusRow :=
  ⟨some "PRJ3", some "Gamma", some "2024-02-01", none, none,
    none, none, none, none, none, none, none, none, none⟩

/-- A row payload for the async path. -/
def rowDataDemo : RowData :=
  ⟨"PRJ9", "Delta", "2024-03-01", "", "", "", "", "", "", "", "", "", "", "",
    ""⟩

/-- C3 amended witness: a validation-failing row in front of a valid row
leaves the persisted psycopg2 table equal to the batch without it, and a
database-failing row on the async path leaves `process_rows` unchanged. -/
theorem failing_row_isolation_amended_witness :
    (process_excel_file_complete (fun _ => false) 7 []
        [statusRowBad, statusRowOk]).1
      = (process_excel_file_complete (fun _ => false) 7 [] [statusRowOk]).1
    ∧ process_rows (fun r2 => r2.project_id == "PRJ9") 7 [] [rowDataDemo]
        = process_rows (fun r2 => r2.project_id == "PRJ9") 7 [] [] := by
  have main := failing_row_isolation_amended (fun _ => false) 7 [] []
    [statusRowOk] statusRowBad "Missing project ID (Number)" (by rfl)
    (fun r2 => r2.project_id == "PRJ9") 7 [] [] [] rowDataDemo (by rfl)
  exact ⟨main.1.1, main.2⟩

/-- C3 counterexample: on the psycopg2 path a database-statement failure
DOES abort the rest of the batch.  With the failure firing on the middle
row, the rows before and after it are still reported processed, but the
shared transaction is aborted - the row after the failure dies with
"current transaction is aborted" and the end-of-loop commit rolls back, so
NOTHING is persisted; the same batch without the failing row persists its
rows.  The remaining records are therefore not processed independently. -/
theorem db_failure_aborts_rest :
    (process_excel_file_complete (fun r => safe_get r.number == "PRJ2") 7 []
        [statusRowOk, statusRowB, statusRowC]).1 = []
    ∧ (process_excel_file_complete (fun r => safe_get r.number == "PRJ2") 7 []
        [statusRowOk, statusRowC]).1 ≠ []
    ∧ (process_excel_file_complete (fun r => safe_get r.number == "PRJ2") 7 []
        [statusRowOk, statusRowB, statusRowC]).2.errors
        = ["database error", "current transaction is aborted"] := by
  refine ⟨?_, ?_, ?_⟩ <;> decide

/-! ## Single-snapshot consolidator
(`project_excel_data_analyzer.create_project_text`) -/

/-- One parsed spreadsheet row as `create_project_text` reads it: the ten
commentary cells plus the `Updated` and `Phase` cells; `none` is NaN. -/
structure ExcelRow where
  executive_summary : Option String
  comments_on_schedule : Option String
  comments_on_budget : Option String
  comments_on_cost : Option String
  comments_on_resources : Option String
  comments_on_scope : Option String
  comments : Option String
  key_activities_planned : Option String
  last_month_achievements : Option String
  business_value_comment : Option String
  updated : Option String
  phase : Option String
deriving DecidableEq, Repr

/-- `_extract_text_content` with its `pd.isna` guard (lines 88-89): a NaN
cell is empty, any other cell is normalized. -/
def extract_text_content (cell : Option String) : String :=
  match cell with
  | none => ""
  | some s => normalizeText s

/-- Python `str.lower()` restricted to ASCII. -/
def pyLower (s : String) : String := String.mk (s.data.map Char.toLower)

/-- The loop body of `create_project_text` (lines 126-129): a section is
emitted exactly when its extracted content is nonempty and its lowercase
form is not one of `n/a`, `na`, `none`, `""`.  The tokens `-` and `nan` are
NOT in this list. -/
def sectionPart (section_name : String) (content : String) : Option String :=
  if content ≠ "" ∧ pyLower content ∉ ["n/a", "na", "none", ""] then
    some ("--- " ++ section_name ++ " ---\n" ++ content ++ "\n")
  else none

/-- The fixed (section header, column) pairs of `create_project_text`
(lines 112-124). -/
def cptSections : List (String × (ExcelRow → Option String)) :=
  [("EXECUTIVE SUMMARY", fun r => r.executive_summary),
    ("COMMENTS ON SCHEDULE", fun r => r.comments_on_schedule),
    ("COMMENTS ON BUDGET", fun r => r.comments_on_budget),
    ("COMMENTS ON COST", fun r => r.comments_on_cost),
    ("COMMENTS ON RESOURCES", fun r => r.comments_on_resources),
    ("COMMENTS ON SCOPE", fun r => r.comments_on_scope),
    ("GENERAL COMMENTS", fun r => r.comments),
    ("KEY ACTIVITIES PLANNED", fun r => r.key_activities_planned),
    ("LAST MONTH ACHIEVEMENTS", fun r => r.last_month_achievements),
    ("BUSINESS VALUE", fun r => r.business_value_comment),
    ("LAST UPDATED", fun r => r.updated)]

/-- `create_project_text` (lines 99-149): the non-omitted sections in fixed
order, then the phase and last-updated markers when present, joined by
newlines. -/
def create_project_text (r : ExcelRow) : String :=
  let parts := cptSections.filterMap fun sc =>
    sectionPart sc.1 (extract_text_content (sc.2 r))
  let parts := parts ++
    (match r.phase with
      | some p => if p ≠ "" then ["PROJECT PHASE: " ++ p] else []
      | none => [])
  let parts := parts ++
    (match r.updated with
      | some u => if u ≠ "" then ["LAST UPDATED: " ++ u] else []
      | none => [])
  String.intercalate "\n" parts

theorem normalizeText_dash : normalizeText "-" = "-" := by
  rw [normalizeText, if_neg (by decide)]
  rw [show ("-" : String).data = ['-'] from rfl]
  rw [removeTags_cons_ne (by decide), removeTags_nil]
  rw [collapseWS_not_ws (by decide), collapseWS_nil]
  rfl

/-- C6 counterexample: the recognized null tokens are NOT all omitted from
the consolidated text.  `format_section` keeps `n/a` as a labelled
`Comments on Budget:` line, and `create_project_text` emits a full labelled
section for the token `-` (its filter checks only `n/a`, `na`, `none`,
`""`). -/
theorem null_token_sections_not_omitted :
    format_section "Comments on Budget" "n/a" = "Comments on Budget: n/a"
    ∧ sectionPart "COMMENTS ON BUDGET" (extract_text_content (some "-"))
        = some "--- COMMENTS ON BUDGET ---\n-\n" := by
  constructor
  · rfl
  · rw [show extract_text_content (some "-") = normalizeText "-" from rfl,
      normalizeText_dash]
    rfl

/-- C6 amended: `create_project_text` omits a section exactly on the four
tokens its filter checks - content whose lowercase form is `""`, `n/a`, `na`
or `none` is never emitted - while `format_section` (the `combined_data`
path) omits only empty or whitespace-only content; the tokens `-` and `nan`
are not filtered by either. -/
theorem null_token_filter_amended :
    (∀ (sn c : String), pyLower c ∈ ["", "n/a", "na", "none"] →
        sectionPart sn c = none)
    ∧ (∀ (sn c : String), pyStripStr c = "" → format_section sn c = "") := by
  constructor
  · intro sn c hc
    have hmem : pyLower c ∈ ["n/a", "na", "none", ""] := by
      simp only [List.mem_cons, List.not_mem_nil, or_false] at hc ⊢
      tauto
    rw [sectionPart, if_neg]
    exact fun hcontra => hcontra.2 hmem
  · intro sn c hc
    rw [format_section, if_pos (Or.inr hc)]

/-- C6 amended witness: the token `N/A` (checked case-insensitively) yields
no section, and whitespace-only content yields no `format_section` line. -/
theorem null_token_filter_amended_witness :
    sectionPart "COMMENTS ON BUDGET" "N/A" = none
    ∧ format_section "Comments on Budget" "   " = "" :=
  ⟨null_token_filter_amended.1 "COMMENTS ON BUDGET" "N/A" (by decide),
    null_token_filter_amended.2 "Comments on Budget" "   " (by decide)⟩

/-! ## Multi-snapshot consolidator
(`project_excel_data_analyzer.process_status_report`, lines 358-459) -/

/-- Whether the list starts with `>`. -/
def headGt : List Char → Bool
  | [] => false
  | c :: _ => c = '>'

/-- `re.sub(r"<[^>]+>", " ", s)` of `extract_text_from_html` (line 388): at a
`<` the pattern matches when at least one non-`>` character stands before the
next `>` (so not when `>` follows immediately); the match becomes one space
and the scanner resumes after the `>`. -/
def removeTagsSp : List Char → List Char
  | [] => []
  | c :: cs =>
    if c = '<' ∧ headGt cs = false then
      match h : afterGt cs with
      | some rest => ' ' :: removeTagsSp rest
      | none => c :: removeTagsSp cs
    else c :: removeTagsSp cs
termination_by l => l.length
decreasing_by
  all_goals simp_wf
  all_goals first
    | omega
    | (have hlen := afterGt_length h
       omega)

/-- Python `str.replace(pat, repl)` with a nonempty pattern: replace every
occurrence, scanning left to right. -/
def replaceAll (pat repl : List Char) : List Char → List Char
  | [] => []
  | c :: cs =>
    if h : pat ≠ [] ∧ pat.isPrefixOf (c :: cs) then
      repl ++ replaceAll pat repl ((c :: cs).drop pat.length)
    else c :: replaceAll pat repl cs
termination_by l => l.length
decreasing_by
  all_goals simp_wf
  rcases pat with _ | ⟨p, ps⟩
  · exact absurd rfl h.1
  · simp

/-- `extract_text_from_html` (lines 381-398): NaN and the raw tokens `""`,
`-`, `n/a`, `nan`, `None` become empty; otherwise tags become spaces, the
four HTML entities are rewritten, whitespace collapses and the ends are
stripped. -/
def extract_text_from_html (cell : Option String) : String :=
  match cell with
  | none => ""
  | some s =>
    if s ∈ ["", "-", "n/a", "nan", "None"] then ""
    else
      let t := removeTagsSp s.data
      let t := replaceAll "&nbsp;".data " ".data t
      let t := replaceAll "&amp;".data "&".data t
      let t := replaceAll "&lt;".data "<".data t
      let t := replaceAll "&gt;".data ">".data t
      String.mk (pyStrip (collapseWS t))

/-- A calendar date as `strftime("%Y-%m-%d")` renders it. -/
structure PDate where
  y : Nat
  m : Nat
  d : Nat
deriving DecidableEq, Repr

def PDate.ord (a : PDate) : Nat := a.y * 10000 + a.m * 100 + a.d

def PDate.le (a b : PDate) : Bool := a.ord ≤ b.ord

def pad2 (n : Nat) : String := if n < 10 then "0" ++ toString n else toString n

def pad4 (n : Nat) : String :=
  if n < 10 then "000" ++ toString n
  else if n < 100 then "00" ++ toString n
  else if n < 1000 then "0" ++ toString n
  else toString n

/-- `record["Updated"].strftime("%Y-%m-%d")` (line 418). -/
def PDate.fmt (a : PDate) : String := pad4 a.y ++ "-" ++ pad2 a.m ++ "-" ++ pad2 a.d

/-- One snapshot row of the status sheet as `process_status_report` groups
them: the `Updated` date and the ten commentary cells (`none` is NaN). -/
structure SnapshotRow where
  updated : PDate
  executive_summary : Option String
  business_value_comment : Option String
  comments : Option String
  comments_on_budget : Option String
  comments_on_cost : Option String
  comments_on_resources : Option String
  comments_on_schedule : Option String
  comments_on_scope : Option String
  key_activities_planned : Option String
  last_month_achievements : Option String
deriving DecidableEq, Repr

/-- The `text_columns` order of `process_status_report` (lines 369-374). -/
def statusTextColumns : List (String × (SnapshotRow → Option String)) :=
  [("Executive Summary", fun r => r.executive_summary),
    ("Business Value Comment", fun r => r.business_value_comment),
    ("Comments", fun r => r.comments),
    ("Comments on Budget", fun r => r.comments_on_budget),
    ("Comments on Cost", fun r => r.comments_on_cost),
    ("Comments on Resources", fun r => r.comments_on_resources),
    ("Comments on Schedule", fun r => r.comments_on_schedule),
    ("Comments on Scope", fun r => r.comments_on_scope),
    ("Key Activities planned", fun r => r.key_activities_planned),
    ("Last Month\x27s Achievements", fun r => r.last_month_achievements)]

/-- The per-record section list of `concatenate_project_text` (lines
407-414): non-NaN cells whose extracted text (with the four-space suffix the
source appends) passes the token filter become `-- {col} -- >> {text}`
entries in column order. -/
def recordParts (r : SnapshotRow) : List String :=
  statusTextColumns.filterMap fun sc =>
    match sc.2 r with
    | none => none
    | some v =>
      let extracted_text := extract_text_from_html (some v) ++ "    "
      if extracted_text ≠ "" ∧ extracted_text ∉ ["-", "n/a", "nan", "None"] then
        some ("-- " ++ sc.1 ++ " -- >> " ++ extracted_text)
      else none

/-- The `sort_values("Updated")` contract (line 405): pandas guarantees a
permutation of the group that is ascending in `Updated`; the default
`kind="quicksort"` fixes no tie order, so every function satisfying this
contract is an admissible implementation of the sort step. -/
def SortsByUpdated (sort : List SnapshotRow → List SnapshotRow) : Prop :=
  (∀ g : List SnapshotRow, List.Perm (sort g) g)
  ∧ (∀ g : List SnapshotRow,
      (sort g).Pairwise (fun a b => a.updated.le b.updated))

/-- One admissible implementation of the contract, for concrete runs. -/
def sortByUpdated (group : List SnapshotRow) : List SnapshotRow :=
  group.mergeSort fun a b => a.updated.le b.updated

/-- The loop body of `concatenate_project_text` (lines 407-420): a record
with a nonempty section list appends its dated header and then its sections
to the accumulated parts; an empty record appends nothing. -/
def concatStep (acc : List String) (r : SnapshotRow) : List String :=
  let record_text_parts := recordParts r
  if record_text_parts ≠ [] then
    (acc ++ ["\n--- Record from " ++ r.updated.fmt ++ " ---"])
      ++ record_text_parts
  else acc

/-- `concatenate_project_text` (lines 401-422), over any function standing
for the line-405 sort: each record with a nonempty section list contributes
a dated header line followed by its sections; the parts are joined with
newlines, or the fallback text is returned when nothing was collected. -/
def concatenate_project_text (sort : List SnapshotRow → List SnapshotRow)
    (group : List SnapshotRow) : String :=
  let group_sorted := sort group
  let all_text_parts := group_sorted.foldl concatStep []
  if all_text_parts ≠ [] then String.intercalate "\n" all_text_parts
  else "No text content available"

theorem updatedLE_trans : ∀ (a b c : SnapshotRow),
    a.updated.le b.updated → b.updated.le c.updated → a.updated.le c.updated := by
  intro a b c
  simp [PDate.le]
  omega

theorem updatedLE_total : ∀ (a b : SnapshotRow),
    a.updated.le b.updated || b.updated.le a.updated := by
  intro a b
  simp [PDate.le]
  omega

theorem sortByUpdated_sorts : SortsByUpdated sortByUpdated :=
  ⟨fun g => List.mergeSort_perm g _,
    fun g => List.sorted_mergeSort updatedLE_trans updatedLE_total g⟩

/-- The four-space suffix of line 412 makes the line-413 check pass for
every string: the padded text is nonempty and differs from each null token,
whatever the text. -/
theorem pad_ne_tokens (x : String) :
    x ++ "    " ≠ ""
    ∧ x ++ "    " ∉ (["-", "n/a", "nan", "None"] : List String) := by
  have hlen : (x ++ "    ").data.length = x.data.length + 4 := by
    rw [String.data_append, List.length_append]
    rfl
  constructor
  · intro h0
    rw [h0] at hlen
    have h2 : ("" : String).data.length = 0 := rfl
    omega
  · intro hmem
    simp only [List.mem_cons, List.not_mem_nil, or_false] at hmem
    rcases hmem with h0 | h0 | h0 | h0
    · rw [h0] at hlen
      have h2 : ("-" : String).data.length = 1 := rfl
      omega
    · rw [h0] at hlen
      have h2 : ("n/a" : String).data.length = 3 := rfl
      omega
    · rw [h0] at hlen
      have h2 : ("nan" : String).data.length = 3 := rfl
      omega
    · rw [h0] at hlen
      have h2 : ("None" : String).data.length = 4 := rfl
      have hx : x.data.length = 0 := by omega
      have hd2 := congrArg String.data h0
      rw [String.data_append, List.length_eq_zero.mp hx] at hd2
      exact absurd hd2 (by decide)

/-- The entries one snapshot actually contributes: one labelled
`-- {col} -- >> {text}` line per non-NaN cell, with the four-space-padded
extracted text - blank-content cells included. -/
def amendedSnapshotEntries (r : SnapshotRow) : List String :=
  statusTextColumns.filterMap fun sc =>
    (sc.2 r).map fun v =>
      "-- " ++ sc.1 ++ " -- >> " ++ (extract_text_from_html (some v) ++ "    ")

/-- Because of `pad_ne_tokens`, the source's token filter on the padded text
never rejects anything: the per-record section list keeps every non-NaN
cell. -/
theorem recordParts_eq (r : SnapshotRow) :
    recordParts r = amendedSnapshotEntries r := by
  rw [recordParts, amendedSnapshotEntries]
  apply List.filterMap_congr
  intro sc _
  cases hv : sc.2 r with
  | none => rfl
  | some v =>
    have hp := pad_ne_tokens (extract_text_from_html (some v))
    exact if_pos ⟨hp.1, hp.2⟩

/-- C7 amended block: a snapshot with at least one non-NaN commentary cell
contributes its dated header followed by one entry per non-NaN cell; a
snapshot with only NaN cells contributes nothing. -/
def amendedSnapshotBlock (r : SnapshotRow) : List String :=
  if amendedSnapshotEntries r = [] then []
  else ("\n--- Record from " ++ r.updated.fmt ++ " ---")
    :: amendedSnapshotEntries r

/-- C7 amended rendering of an already-ordered snapshot list: the blocks in
list order joined by newlines, or the fallback text. -/
def amendedMultiSnapshotText (ordered : List SnapshotRow) : String :=
  if ordered.flatMap amendedSnapshotBlock = [] then "No text content available"
  else String.intercalate "\n" (ordered.flatMap amendedSnapshotBlock)

theorem concatStep_eq_amended (acc : List String) (r : SnapshotRow) :
    concatStep acc r = acc ++ amendedSnapshotBlock r := by
  rw [concatStep, amendedSnapshotBlock, recordParts_eq]
  by_cases h : amendedSnapshotEntries r = []
  · simp [h]
  · simp [h]

theorem concat_foldl_amended : ∀ (rs : List SnapshotRow) (acc : List String),
    rs.foldl concatStep acc = acc ++ rs.flatMap amendedSnapshotBlock := by
  intro rs
  induction rs with
  | nil => simp
  | cons r rs ih =>
    intro acc
    rw [List.foldl_cons, List.flatMap_cons, concatStep_eq_amended, ih]
    simp

/-- C7 amended: over every sort satisfying the `sort_values` contract, the
multi-snapshot consolidation renders the sorted group - a permutation of
the group, ascending in `updated` - block by block in that chronological
order: each snapshot with at least one non-NaN commentary cell contributes
its `--- Record from {date} ---` header followed by one labelled entry per
non-NaN cell.  Unlike the claim's wording, the entries are NOT restricted
to non-empty sections: the four-space suffix the code appends before its
emptiness check makes every non-NaN cell emit an entry, blank-content cells
included (see the counterexample). -/
theorem concatenate_chronological_amended
    (sort : List SnapshotRow → List SnapshotRow) (hsort : SortsByUpdated sort)
    (group : List SnapshotRow) :
    concatenate_project_text sort group = amendedMultiSnapshotText (sort group)
    ∧ (sort group).Pairwise (fun a b => a.updated.le b.updated)
    ∧ List.Perm (sort group) group := by
  refine ⟨?_, hsort.2 group, hsort.1 group⟩
  rw [concatenate_project_text, amendedMultiSnapshotText,
    concat_foldl_amended (sort group) []]
  simp only [List.nil_append]
  by_cases h : (sort group).flatMap amendedSnapshotBlock = []
  · rw [if_neg (by simp [h]), if_pos h]
  · rw [if_pos h, if_neg h]

/-- A demo snapshot with one commentary cell. -/
def demoSnapA : SnapshotRow :=
  ⟨⟨2024, 3, 5⟩, some "March summary", none, none, none, none, none, none,
    none, none, none⟩

/-- C7 amended witness: the amended theorem instantiated at the admissible
`sortByUpdated` sort and a concrete one-snapshot group. -/
theorem concatenate_chronological_amended_witness :
    concatenate_project_text sortByUpdated [demoSnapA]
        = amendedMultiSnapshotText (sortByUpdated [demoSnapA])
    ∧ List.Perm (sortByUpdated [demoSnapA]) [demoSnapA] :=
  ⟨(concatenate_chronological_amended sortByUpdated sortByUpdated_sorts
      [demoSnapA]).1,
    (concatenate_chronological_amended sortByUpdated sortByUpdated_sorts
      [demoSnapA]).2.2⟩

/-- A snapshot whose only non-NaN cell holds the null token `-`, so its
extracted text is empty. -/
def blankSnap : SnapshotRow :=
  ⟨⟨2024, 2, 1⟩, none, none, none, some "-", none, none, none, none, none,
    none⟩

/-- C7 counterexample: the claim's "non-empty labeled sections" is false.
The snapshot's only cell holds the null token `-`, whose extracted text is
empty, yet the output contains a dated header and a labelled
`Comments on Budget` entry whose content is blank (the four padding spaces
of line 412): the padding runs before the nonemptiness check, so
blank-content sections are emitted rather than suppressed. -/
theorem blank_section_emitted :
    extract_text_from_html (some "-") = ""
    ∧ recordParts blankSnap = ["-- Comments on Budget -- >>     "]
    ∧ concatenate_project_text sortByUpdated [blankSnap]
        = "\n--- Record from 2024-02-01 ---\n-- Comments on Budget -- >>     " := by
  refine ⟨by decide, by decide, ?_⟩
  rw [concatenate_project_text, sortByUpdated, List.mergeSort_singleton]
  decide
